import Mathlib

/-
Verification of the token-lifecycle subsystem of the flux-extension-controller
repository: the secret/credential helpers in pkg/kubernetes/secret.go and the
RefreshManager in pkg/token (ScheduleRefresh, CancelRefresh, executeRefresh,
CheckAndRefreshExpiredTokens).

Modelling conventions:
  - Wall-clock time is an integer number of seconds (Go time.Duration ratios
    are preserved: 1 minute = 60, the refresh buffer of 5 minutes = 300).
  - time.Parse(time.RFC3339, s) and t.Format(time.RFC3339) are external
    standard-library calls; they are threaded through as explicit function
    parameters (parse : String -> Option Time, format : Time -> String), so
    every theorem holds for an arbitrary parser and witnesses instantiate
    them with concrete finite tables.
  - Go maps (secret.Data, secret.Annotations, rm.refreshJobs) are modelled as
    association lists with replace-on-write semantics; a nil Go map is
    distinguished from an empty one by Option.
  - time.Timer and context.CancelFunc handles are modelled by integer ids
    allocated from a counter in the scheduler state; Timer.Stop appends the
    id to a stopped set, CancelFunc invocation appends to an invoked set.
  - The Kubernetes API server is a list of secrets (the Store); client.Get
    is a field-keyed lookup and controllerutil.CreateOrUpdate is modelled as
    fetch-or-blank, mutate, write-back, with SetControllerReference
    reproducing the AlreadyOwned check of controller-runtime.
-/

namespace FluxExt

abbrev Time := Int

/-- Key-value lookup in an association-list model of a Go string map. -/
def lookupKV : List (String × String) → String → Option String
  | [], _ => none
  | p :: rest, k => if p.1 == k then some p.2 else lookupKV rest k

/-- Key-value write in an association-list model of a Go string map:
replaces the value at an existing key, appends otherwise. -/
def setKV : List (String × String) → String → String → List (String × String)
  | [], k, v => [(k, v)]
  | p :: rest, k, v =>
    if p.1 == k then (k, v) :: setKV rest k v else p :: setKV rest k v

theorem lookupKV_setKV_self (m : List (String × String)) (k v : String) :
    lookupKV (setKV m k v) k = some v := by
  induction m with
  | nil => simp [setKV, lookupKV]
  | cons p rest ih =>
    by_cases h : p.1 == k
    · simp [setKV, lookupKV, h]
    · simp only [setKV, lookupKV, h, if_neg]
      simpa [h] using ih

/-- Owner reference entry of a Kubernetes object (metav1.OwnerReference):
kind, name, uid and the controller flag. -/
structure OwnerRef where
  kind : String
  name : String
  uid : String
  controller : Bool
deriving DecidableEq, Repr

/-- A Kubernetes Secret as the token subsystem sees it: identity metadata,
the data map (nil-able in Go, hence Option is not used for data because the
code always materialises it before writing; an absent map is the empty
list), the annotations map (nil-able, hence Option), owner references and
the secret type string. -/
structure Secret where
  namespace' : String
  name : String
  uid : String
  data : List (String × String)
  annotations : Option (List (String × String))
  ownerReferences : List OwnerRef
  secretType : String
deriving DecidableEq, Repr

/-- Constant from pkg/kubernetes/secret.go. -/
def SecretTypeGitRepository : String := "kubernetes.io/git-repository"

/-- Constant from pkg/kubernetes/secret.go. -/
def AnnotationManagedBy : String := "flux-extension-controller.nrfcloud.com/managed-by"

/-- Constant from pkg/kubernetes/secret.go. -/
def AnnotationTokenExpiry : String := "flux-extension-controller.nrfcloud.com/token-expiry"

/-- Constant from pkg/kubernetes/secret.go. -/
def AnnotationRepositoryURL : String := "flux-extension-controller.nrfcloud.com/repository-url"

/-- The managed-by marker value this controller writes and checks. -/
def controllerName : String := "flux-extension-controller"

/-- Annotation lookup on a secret, respecting the nil-map case. -/
def annLookup (s : Secret) (k : String) : Option String :=
  match s.annotations with
  | none => none
  | some anns => lookupKV anns k

/-- IsSecretManagedByController (pkg/kubernetes/secret.go): true iff the
managed-by annotation exists and equals "flux-extension-controller". -/
def IsSecretManagedByController (secret : Secret) : Bool :=
  match secret.annotations with
  | none => false
  | some anns =>
    match lookupKV anns AnnotationManagedBy with
    | none => false
    | some managedBy => managedBy == controllerName

/-- The three failure shapes of GetTokenExpiry: no annotations map, no
token-expiry annotation, or a value time.Parse rejects. -/
inductive ExpiryError where
  | noAnnotations
  | missingExpiryKey
  | parseFailure
deriving DecidableEq, Repr

/-- Result of GetTokenExpiry. -/
inductive ExpiryResult where
  | ok (t : Time)
  | err (e : ExpiryError)
deriving DecidableEq, Repr

/-- GetTokenExpiry (pkg/kubernetes/secret.go): reads the token-expiry
annotation and parses it with the given RFC3339 parser. -/
def GetTokenExpiry (parse : String → Option Time) (secret : Secret) : ExpiryResult :=
  match secret.annotations with
  | none => .err .noAnnotations
  | some anns =>
    match lookupKV anns AnnotationTokenExpiry with
    | none => .err .missingExpiryKey
    | some expiryStr =>
      match parse expiryStr with
      | none => .err .parseFailure
      | some expiry => .ok expiry

/-- NeedsTokenRefresh (pkg/kubernetes/secret.go): false without error when
the secret is not managed by this controller; on a parse failure it returns
true together with the error; otherwise true iff time.Until(expiry), that
is expiry - now, is below the refresh threshold. -/
def NeedsTokenRefresh (parse : String → Option Time) (now : Time)
    (secret : Secret) (refreshThreshold : Time) : Bool × Option ExpiryError :=
  if !(IsSecretManagedByController secret) then (false, none)
  else
    match GetTokenExpiry parse secret with
    | .err e => (true, some e)
    | .ok expiry => (decide (expiry - now < refreshThreshold), none)

/-- The Kubernetes API server state restricted to secrets. -/
abbrev Store := List Secret

/-- client.Get on a secret key (GetSecret in pkg/kubernetes/secret.go);
a miss models the NotFound error. -/
def GetSecret : Store → String → String → Option Secret
  | [], _, _ => none
  | s :: rest, ns, name =>
    if s.namespace' == ns && s.name == name then some s else GetSecret rest ns name

/-- Whether a secret with the given key exists. -/
def containsSecret : Store → String → String → Bool
  | [], _, _ => false
  | s :: rest, ns, name =>
    (s.namespace' == ns && s.name == name) || containsSecret rest ns name

/-- Replace every secret at the given key. -/
def replaceSecret : Store → String → String → Secret → Store
  | [], _, _, _ => []
  | x :: rest, ns, name, s =>
    if x.namespace' == ns && x.name == name
    then s :: replaceSecret rest ns name s
    else x :: replaceSecret rest ns name s

/-- Write-back half of controllerutil.CreateOrUpdate: update the object in
place when it exists, create it otherwise. -/
def putSecret (store : Store) (ns name : String) (s : Secret) : Store :=
  if containsSecret store ns name then replaceSecret store ns name s
  else store ++ [s]

theorem GetSecret_fields {store : Store} {ns name : String} {s : Secret}
    (h : GetSecret store ns name = some s) :
    s.namespace' = ns ∧ s.name = name := by
  induction store with
  | nil => simp [GetSecret] at h
  | cons x rest ih =>
    by_cases hx : x.namespace' == ns && x.name == name
    · simp only [GetSecret, hx, if_true, Option.some.injEq] at h
      subst h
      constructor
      · exact eq_of_beq (Bool.and_elim_left hx)
      · exact eq_of_beq (Bool.and_elim_right hx)
    · simp only [GetSecret, hx, if_false] at h
      exact ih h

theorem GetSecret_putSecret (store : Store) (ns name : String) (s : Secret)
    (h1 : s.namespace' = ns) (h2 : s.name = name) :
    GetSecret (putSecret store ns name s) ns name = some s := by
  have hs : (s.namespace' == ns && s.name == name) = true := by
    subst h1; subst h2; simp
  unfold putSecret
  by_cases hc : containsSecret store ns name
  · simp only [hc, if_true]
    induction store with
    | nil => simp [containsSecret] at hc
    | cons x rest ih =>
      by_cases hx : x.namespace' == ns && x.name == name
      · simp [replaceSecret, GetSecret, hx, hs]
      · have hrest : containsSecret rest ns name = true := by
          simpa [containsSecret, hx] using hc
        simp only [replaceSecret, hx, if_false]
        simp only [GetSecret, hx, if_false]
        exact ih hrest
  · simp only [hc, if_false]
    induction store with
    | nil => simp [GetSecret, hs]
    | cons x rest ih =>
      have hx : (x.namespace' == ns && x.name == name) = false := by
        by_contra hcon
        have : containsSecret (x :: rest) ns name = true := by
          simp only [containsSecret, Bool.or_eq_true]
          left
          exact Bool.eq_true_of_not_eq_false hcon
        exact hc this
      have hrest : ¬ containsSecret rest ns name = true := by
        intro hcon
        apply hc
        simp [containsSecret, hcon]
      simp only [List.cons_append, GetSecret, hx, if_false]
      exact ih hrest

/-- The ownership / source-conflict failures of ValidateSecretOwnership. -/
inductive OwnershipError where
  | notManaged
  | differentRepository (existing : String)
deriving DecidableEq, Repr

/-- ValidateSecretOwnership (pkg/kubernetes/secret.go): success (none) when
the secret is absent (NotFound); not-managed error when the managed-by
marker is absent or different; source-conflict error when the secret is
managed but records a different repository URL. The function only issues a
GetSecret read. -/
def ValidateSecretOwnership (store : Store) (ns name repositoryURL : String) :
    Option OwnershipError :=
  match GetSecret store ns name with
  | none => none
  | some secret =>
    if !(IsSecretManagedByController secret) then some .notManaged
    else
      match secret.annotations with
      | none => none
      | some anns =>
        match lookupKV anns AnnotationRepositoryURL with
        | none => none
        | some existingURL =>
          if existingURL != repositoryURL
          then some (.differentRepository existingURL)
          else none

/-- Stateful reading of ValidateSecretOwnership: the Go body performs only a
read, so the store component passes through untouched. -/
def ValidateSecretOwnershipS (store : Store) (ns name repositoryURL : String) :
    Store × Option OwnershipError :=
  (store, ValidateSecretOwnership store ns name repositoryURL)

/-- RefreshJob (pkg/token refresh manager): one in-memory scheduling entry.
Timer and Cancel hold handle ids (Go: a *time.Timer and a
context.CancelFunc, both nil-able). -/
structure RefreshJob where
  SecretNamespace : String
  SecretName : String
  RepositoryURL : String
  NextRefresh : Time
  Timer : Option Nat
  Cancel : Option Nat
deriving DecidableEq, Repr

/-- The mutable state owned by the RefreshManager: the refreshJobs map plus
an explicit ledger for the timer and cancel handles the Go runtime owns.
armedTimers records each created timer id with its absolute fire time,
stoppedTimers the ids on which Timer.Stop was called, invokedCancels the
ids of invoked context.CancelFunc handles; nextId feeds fresh ids. -/
structure RMState where
  refreshJobs : List (String × RefreshJob)
  armedTimers : List (Nat × Time)
  stoppedTimers : List Nat
  invokedCancels : List Nat
  nextId : Nat
deriving DecidableEq, Repr

/-- The empty state NewRefreshManager starts from. -/
def rmInit : RMState := ⟨[], [], [], [], 0⟩

/-- refreshBuffer, hard-coded to 5 minutes in NewRefreshManager. -/
def refreshBuffer : Time := 5 * 60

/-- The 1-minute clamp applied when a token expires soon (ScheduleRefresh). -/
def oneMinute : Time := 60

/-- jobKey, built as namespace slash name (fmt.Sprintf in the Go source). -/
def jobKeyOf (ns name : String) : String := ns ++ "/" ++ name

/-- Lookup in the refreshJobs map. -/
def lookupJob : List (String × RefreshJob) → String → Option RefreshJob
  | [], _ => none
  | p :: rest, k => if p.1 == k then some p.2 else lookupJob rest k

/-- delete(rm.refreshJobs, jobKey). -/
def removeJob : List (String × RefreshJob) → String → List (String × RefreshJob)
  | [], _ => []
  | p :: rest, k => if p.1 == k then removeJob rest k else p :: removeJob rest k

/-- rm.refreshJobs[jobKey] = job (Go map assignment: replace or insert). -/
def setJob (jobs : List (String × RefreshJob)) (k : String) (j : RefreshJob) :
    List (String × RefreshJob) :=
  removeJob jobs k ++ [(k, j)]

/-- Number of entries for a key (a Go map holds at most one). -/
def countJobs : List (String × RefreshJob) → String → Nat
  | [], _ => 0
  | p :: rest, k => (if p.1 == k then 1 else 0) + countJobs rest k

/-- A timer is live (can still fire) when it was armed and never stopped. -/
def timerLive (st : RMState) (t : Nat) : Prop :=
  st.armedTimers.any (fun p => p.1 == t) = true ∧ t ∉ st.stoppedTimers

instance (st : RMState) (t : Nat) : Decidable (timerLive st t) := by
  unfold timerLive
  infer_instance

/-- The shared cancel-then-stop snippet: if job.Cancel is non-nil invoke it,
if job.Timer is non-nil stop it (appears in ScheduleRefresh, CancelRefresh
and Stop of the refresh manager). -/
def cancelJobHandles (st : RMState) (job : RefreshJob) : RMState :=
  let st1 :=
    match job.Cancel with
    | some c => { st with invokedCancels := c :: st.invokedCancels }
    | none => st
  match job.Timer with
  | some t => { st1 with stoppedTimers := t :: st1.stoppedTimers }
  | none => st1

/-- The cancel-existing-job prefix of ScheduleRefresh: the map entry is NOT
removed, only its handles are cancelled. -/
def cancelExistingJob (st : RMState) (jobKey : String) : RMState :=
  match lookupJob st.refreshJobs jobKey with
  | some existingJob => cancelJobHandles st existingJob
  | none => st

/-- The tail of a successful ScheduleRefresh: context.WithCancel allocates a
cancel handle, time.AfterFunc allocates and arms a timer, the job is built
and installed in the map. -/
def armJob (st : RMState) (jobKey ns name url : String) (nextRefresh : Time) :
    RMState :=
  let cancelId := st.nextId
  let timerId := st.nextId + 1
  let job : RefreshJob :=
    ⟨ns, name, url, nextRefresh, some timerId, some cancelId⟩
  { refreshJobs := setJob st.refreshJobs jobKey job
    armedTimers := st.armedTimers ++ [(timerId, nextRefresh)]
    stoppedTimers := st.stoppedTimers
    invokedCancels := st.invokedCancels
    nextId := st.nextId + 2 }

/-- The two failure shapes of ScheduleRefresh: GetSecret failed, or the
token-expiry annotation could not be read or parsed. -/
inductive ScheduleError where
  | getSecretFailed
  | getExpiryFailed (e : ExpiryError)
deriving DecidableEq, Repr

/-- ScheduleRefresh (pkg/token): cancel the handles of any existing job for
the key, read the secret, read its expiry, compute
nextRefresh = expiry - refreshBuffer clamped to now + 1 minute when already
past, then install a fresh job with a newly armed timer. On failure the
error is returned after the cancel prefix already ran. -/
def ScheduleRefresh (parse : String → Option Time) (now : Time) (store : Store)
    (st : RMState) (ns name repositoryURL : String) : RMState × Option ScheduleError :=
  let jobKey := jobKeyOf ns name
  let st1 := cancelExistingJob st jobKey
  match GetSecret store ns name with
  | none => (st1, some .getSecretFailed)
  | some secret =>
    match GetTokenExpiry parse secret with
    | .err e => (st1, some (.getExpiryFailed e))
    | .ok expiry =>
      let nextRefresh0 := expiry - refreshBuffer
      let nextRefresh := if nextRefresh0 < now then now + oneMinute else nextRefresh0
      (armJob st1 jobKey ns name repositoryURL nextRefresh, none)

/-- CancelRefresh (pkg/token): no-op when no job exists for the key,
otherwise invoke the cancel handle, stop the timer and delete the map
entry. -/
def CancelRefresh (st : RMState) (ns name : String) : RMState :=
  let jobKey := jobKeyOf ns name
  match lookupJob st.refreshJobs jobKey with
  | none => st
  | some job =>
    let st1 := cancelJobHandles st job
    { st1 with refreshJobs := removeJob st1.refreshJobs jobKey }

/-- Identity triple used in owner references. -/
structure ObjectId where
  kind : String
  name : String
  uid : String
deriving DecidableEq, Repr

/-- The object identity of a Secret, as the scheme resolves it. -/
def secretObjectId (s : Secret) : ObjectId := ⟨"Secret", s.name, s.uid⟩

/-- metav1.GetControllerOf: the owner reference flagged as controller. -/
def getControllerOf (s : Secret) : Option OwnerRef :=
  s.ownerReferences.find? (fun r => r.controller)

/-- referSameObject of controller-runtime: compares kind and name (the uid
is not part of the comparison). -/
def refersSameObject (a b : OwnerRef) : Bool :=
  a.kind == b.kind && a.name == b.name

/-- Replace the owner reference for the same object, append otherwise
(upsertOwnerRef of controller-runtime). -/
def upsertOwnerRef (refs : List OwnerRef) (ref : OwnerRef) : List OwnerRef :=
  if refs.any (fun r => refersSameObject r ref)
  then refs.map (fun r => if refersSameObject r ref then ref else r)
  else refs ++ [ref]

/-- Result of the CreateOrUpdate mutation closure. -/
inductive MutateResult where
  | ok (s : Secret)
  | alreadyOwned
deriving DecidableEq, Repr

/-- controllerutil.SetControllerReference: fails with AlreadyOwnedError when
the object already has a controller owner reference to a different object,
otherwise upserts a controller-flagged reference to the owner. -/
def setControllerReference (owner : ObjectId) (s : Secret) : MutateResult :=
  let ref : OwnerRef := ⟨owner.kind, owner.name, owner.uid, true⟩
  match getControllerOf s with
  | some existing =>
    if refersSameObject existing ref
    then .ok { s with ownerReferences := upsertOwnerRef s.ownerReferences ref }
    else .alreadyOwned
  | none => .ok { s with ownerReferences := s.ownerReferences ++ [ref] }

/-- A GitHub App installation token as returned by the issuer. -/
structure InstallationToken where
  token : String
  expiresAt : Time
deriving DecidableEq, Repr

/-- The mutation closure of CreateOrUpdateSecret (pkg/kubernetes/secret.go):
set the secret type, write the fixed username and the token value into
data, write the managed-by / token-expiry / repository-url annotations,
then set the controller owner reference. -/
def mutateSecret (format : Time → String) (tok : InstallationToken)
    (repositoryURL : String) (owner : ObjectId) (secret : Secret) : MutateResult :=
  let data1 := setKV (setKV secret.data "username" "git") "password" tok.token
  let anns0 :=
    match secret.annotations with
    | none => []
    | some anns => anns
  let anns1 := setKV anns0 AnnotationManagedBy controllerName
  let anns2 := setKV anns1 AnnotationTokenExpiry (format tok.expiresAt)
  let anns3 := setKV anns2 AnnotationRepositoryURL repositoryURL
  setControllerReference owner
    { secret with
      secretType := SecretTypeGitRepository
      data := data1
      annotations := some anns3 }

/-- CreateOrUpdateSecret (pkg/kubernetes/secret.go) on top of
controllerutil.CreateOrUpdate: fetch the existing secret or start from the
blank object built in the function, run the mutation closure, and write the
result back; a mutation failure aborts without writing. -/
def CreateOrUpdateSecret (format : Time → String) (store : Store)
    (ns name : String) (tok : InstallationToken) (repositoryURL : String)
    (owner : ObjectId) : Option Store :=
  let base :=
    match GetSecret store ns name with
    | some s => s
    | none =>
      { namespace' := ns, name := name, uid := "", data := []
        annotations := none, ownerReferences := [], secretType := "" }
  match mutateSecret format tok repositoryURL owner base with
  | .alreadyOwned => none
  | .ok s1 => some (putSecret store ns name s1)

/-- The owner-selection loop of executeRefresh (pkg/token): scan the owner
references for one of kind GitRepository; when found the SECRET ITSELF is
used as owner (the Go comment says fetching the real GitRepository is
skipped for simplicity). -/
def findGitRepoOwner (secret : Secret) : List OwnerRef → Option Secret
  | [] => none
  | r :: rest =>
    if r.kind == "GitRepository" then some secret else findGitRepoOwner secret rest

/-- The owner executeRefresh passes to CreateOrUpdateSecret: the loop result
when it found a GitRepository reference, and the secret itself as the
explicit fallback otherwise. -/
def ownerForRefresh (secret : Secret) : Secret :=
  match findGitRepoOwner secret secret.ownerReferences with
  | some o => o
  | none => secret

/-- Combined mutable world: the API server store plus the scheduler state. -/
structure World where
  store : Store
  rm : RMState
deriving DecidableEq, Repr

/-- Result of one executeRefresh cycle. upsertOwner instruments which owner
object was handed to CreateOrUpdateSecret (none when the cycle aborted
before reaching the upsert); the Go function itself returns nothing. -/
structure RefreshOutcome where
  world : World
  upsertOwner : Option Secret
deriving DecidableEq, Repr

/-- executeRefresh (pkg/token): validate the repository URL, request a new
installation token, fetch the secret, choose the owner, upsert the secret
and finally call ScheduleRefresh again for the same key. Every failure is
logged and abandons the cycle without retry; no error is surfaced to any
caller. -/
def executeRefresh (validateRepositoryURL : String → Bool)
    (generateInstallationToken : String → Option InstallationToken)
    (parse : String → Option Time) (format : Time → String) (now : Time)
    (w : World) (job : RefreshJob) : RefreshOutcome :=
  if !(validateRepositoryURL job.RepositoryURL) then ⟨w, none⟩
  else
    match generateInstallationToken job.RepositoryURL with
    | none => ⟨w, none⟩
    | some tok =>
      match GetSecret w.store job.SecretNamespace job.SecretName with
      | none => ⟨w, none⟩
      | some secret =>
        let owner := ownerForRefresh secret
        match CreateOrUpdateSecret format w.store job.SecretNamespace
            job.SecretName tok job.RepositoryURL (secretObjectId owner) with
        | none => ⟨w, some owner⟩
        | some store1 =>
          let rm1 :=
            (ScheduleRefresh parse now store1 w.rm job.SecretNamespace
              job.SecretName job.RepositoryURL).1
          ⟨⟨store1, rm1⟩, some owner⟩

/-- The body of the sweep loop of CheckAndRefreshExpiredTokens (pkg/token)
for one listed secret: skip unmanaged secrets; skip (log only) secrets whose
NeedsTokenRefresh call returns an error; for secrets that need refresh read
the repository-url annotation, skip when it is empty, otherwise call
ScheduleRefresh (whose error is only logged). -/
def sweepOne (parse : String → Option Time) (now : Time) (store : Store)
    (st : RMState) (secret : Secret) : RMState :=
  if !(IsSecretManagedByController secret) then st
  else
    match NeedsTokenRefresh parse now secret refreshBuffer with
    | (_, some _) => st
    | (needsRefresh, none) =>
      if needsRefresh then
        let repositoryURL :=
          match secret.annotations with
          | none => ""
          | some anns =>
            match lookupKV anns AnnotationRepositoryURL with
            | none => ""
            | some u => u
        if repositoryURL == "" then st
        else
          (ScheduleRefresh parse now store st secret.namespace' secret.name
            repositoryURL).1
      else st

/-- CheckAndRefreshExpiredTokens (pkg/token): list every secret and run the
sweep body on each. -/
def CheckAndRefreshExpiredTokens (parse : String → Option Time) (now : Time)
    (store : Store) (st : RMState) : RMState :=
  store.foldl (sweepOne parse now store) st

/-! Helper lemmas about the job map. -/

theorem lookupJob_removeJob_self (jobs : List (String × RefreshJob)) (k : String) :
    lookupJob (removeJob jobs k) k = none := by
  induction jobs with
  | nil => simp [removeJob, lookupJob]
  | cons p rest ih =>
    by_cases h : p.1 == k
    · simpa [removeJob, h] using ih
    · simpa [removeJob, lookupJob, h] using ih

theorem lookupJob_setJob_self (jobs : List (String × RefreshJob)) (k : String)
    (j : RefreshJob) : lookupJob (setJob jobs k j) k = some j := by
  unfold setJob
  induction jobs with
  | nil => simp [removeJob, lookupJob]
  | cons p rest ih =>
    by_cases h : p.1 == k
    · simpa [removeJob, h] using ih
    · simpa [removeJob, lookupJob, h] using ih

theorem countJobs_append (l1 l2 : List (String × RefreshJob)) (k : String) :
    countJobs (l1 ++ l2) k = countJobs l1 k + countJobs l2 k := by
  induction l1 with
  | nil => simp [countJobs]
  | cons p rest ih => simp [countJobs, ih]; omega

theorem countJobs_removeJob_self (jobs : List (String × RefreshJob)) (k : String) :
    countJobs (removeJob jobs k) k = 0 := by
  induction jobs with
  | nil => simp [removeJob, countJobs]
  | cons p rest ih =>
    by_cases h : p.1 == k
    · simpa [removeJob, h] using ih
    · simpa [removeJob, countJobs, h] using ih

theorem countJobs_setJob_self (jobs : List (String × RefreshJob)) (k : String)
    (j : RefreshJob) : countJobs (setJob jobs k j) k = 1 := by
  unfold setJob
  rw [countJobs_append, countJobs_removeJob_self]
  simp [countJobs]

theorem lookupJob_mem {jobs : List (String × RefreshJob)} {k : String}
    {j : RefreshJob} (h : lookupJob jobs k = some j) : (k, j) ∈ jobs := by
  induction jobs with
  | nil => simp [lookupJob] at h
  | cons p rest ih =>
    by_cases hk : p.1 == k
    · simp only [lookupJob, hk, if_true, Option.some.injEq] at h
      have hp : p = (k, j) := by
        have : p.1 = k := eq_of_beq hk
        cases p
        simp_all
      rw [hp]
      exact List.mem_cons_self _ _
    · simp only [lookupJob, hk, if_false] at h
      exact List.mem_cons_of_mem _ (ih h)

theorem mem_removeJob {jobs : List (String × RefreshJob)} {k : String}
    {q : String × RefreshJob} (h : q ∈ removeJob jobs k) : q ∈ jobs := by
  induction jobs with
  | nil => simp [removeJob] at h
  | cons p rest ih =>
    by_cases hk : p.1 == k
    · simp only [removeJob, hk, if_true] at h
      exact List.mem_cons_of_mem _ (ih h)
    · simp only [removeJob, hk, if_false] at h
      rcases List.mem_cons.mp h with h1 | h2
      · exact h1 ▸ List.mem_cons_self _ _
      · exact List.mem_cons_of_mem _ (ih h2)

/-! Helper lemmas about cancelJobHandles and cancelExistingJob. -/

theorem cancelJobHandles_refreshJobs (st : RMState) (j : RefreshJob) :
    (cancelJobHandles st j).refreshJobs = st.refreshJobs := by
  unfold cancelJobHandles
  cases j.Cancel <;> cases j.Timer <;> rfl

theorem cancelJobHandles_armedTimers (st : RMState) (j : RefreshJob) :
    (cancelJobHandles st j).armedTimers = st.armedTimers := by
  unfold cancelJobHandles
  cases j.Cancel <;> cases j.Timer <;> rfl

theorem cancelJobHandles_nextId (st : RMState) (j : RefreshJob) :
    (cancelJobHandles st j).nextId = st.nextId := by
  unfold cancelJobHandles
  cases j.Cancel <;> cases j.Timer <;> rfl

theorem cancelJobHandles_stopped_mem (st : RMState) (j : RefreshJob) {t : Nat}
    (h : t ∈ st.stoppedTimers) : t ∈ (cancelJobHandles st j).stoppedTimers := by
  unfold cancelJobHandles
  cases j.Cancel <;> cases j.Timer <;> simp_all

theorem cancelJobHandles_stops (st : RMState) (j : RefreshJob) {t : Nat}
    (h : j.Timer = some t) : t ∈ (cancelJobHandles st j).stoppedTimers := by
  unfold cancelJobHandles
  cases hc : j.Cancel <;> rw [h] <;> simp

theorem cancelJobHandles_cancels (st : RMState) (j : RefreshJob) {c : Nat}
    (h : j.Cancel = some c) : c ∈ (cancelJobHandles st j).invokedCancels := by
  unfold cancelJobHandles
  rw [h]
  cases j.Timer <;> simp

theorem cancelJobHandles_stopped_sub (st : RMState) (j : RefreshJob) {t : Nat}
    (h : t ∈ (cancelJobHandles st j).stoppedTimers) :
    t ∈ st.stoppedTimers ∨ j.Timer = some t := by
  unfold cancelJobHandles at h
  cases hc : j.Cancel <;> cases ht : j.Timer <;> rw [hc, ht] at h <;>
    simp_all <;> tauto

theorem cancelExistingJob_refreshJobs (st : RMState) (k : String) :
    (cancelExistingJob st k).refreshJobs = st.refreshJobs := by
  unfold cancelExistingJob
  cases lookupJob st.refreshJobs k with
  | none => rfl
  | some j => exact cancelJobHandles_refreshJobs st j

theorem cancelExistingJob_armedTimers (st : RMState) (k : String) :
    (cancelExistingJob st k).armedTimers = st.armedTimers := by
  unfold cancelExistingJob
  cases lookupJob st.refreshJobs k with
  | none => rfl
  | some j => exact cancelJobHandles_armedTimers st j

theorem cancelExistingJob_nextId (st : RMState) (k : String) :
    (cancelExistingJob st k).nextId = st.nextId := by
  unfold cancelExistingJob
  cases lookupJob st.refreshJobs k with
  | none => rfl
  | some j => exact cancelJobHandles_nextId st j

theorem cancelExistingJob_stopped_mem (st : RMState) (k : String) {t : Nat}
    (h : t ∈ st.stoppedTimers) : t ∈ (cancelExistingJob st k).stoppedTimers := by
  unfold cancelExistingJob
  cases lookupJob st.refreshJobs k with
  | none => exact h
  | some j => exact cancelJobHandles_stopped_mem st j h

theorem cancelExistingJob_stopped_sub (st : RMState) (k : String) {t : Nat}
    (h : t ∈ (cancelExistingJob st k).stoppedTimers) :
    t ∈ st.stoppedTimers ∨
      ∃ j, lookupJob st.refreshJobs k = some j ∧ j.Timer = some t := by
  unfold cancelExistingJob at h
  cases hl : lookupJob st.refreshJobs k with
  | none => rw [hl] at h; exact Or.inl h
  | some j =>
    rw [hl] at h
    rcases cancelJobHandles_stopped_sub st j h with h1 | h2
    · exact Or.inl h1
    · exact Or.inr ⟨j, rfl, h2⟩

/-! Characterization of ScheduleRefresh runs. -/

theorem scheduleRefresh_ok {parse : String → Option Time} {now : Time}
    {store : Store} {st : RMState} {ns name url : String} {st' : RMState}
    (h : ScheduleRefresh parse now store st ns name url = (st', none)) :
    ∃ secret T,
      GetSecret store ns name = some secret ∧
      GetTokenExpiry parse secret = .ok T ∧
      st' = armJob (cancelExistingJob st (jobKeyOf ns name)) (jobKeyOf ns name)
              ns name url
              (if T - refreshBuffer < now then now + oneMinute
               else T - refreshBuffer) := by
  unfold ScheduleRefresh at h
  cases hg : GetSecret store ns name with
  | none => rw [hg] at h; simp at h
  | some secret =>
    simp only [hg] at h
    cases he : GetTokenExpiry parse secret with
    | err e => simp only [he] at h; simp at h
    | ok T =>
      simp only [he, Prod.mk.injEq] at h
      exact ⟨secret, T, rfl, he, h.1.symm⟩

theorem scheduleRefresh_err {parse : String → Option Time} {now : Time}
    {store : Store} {st : RMState} {ns name url : String} {st' : RMState}
    {e : ScheduleError}
    (h : ScheduleRefresh parse now store st ns name url = (st', some e)) :
    st' = cancelExistingJob st (jobKeyOf ns name) := by
  unfold ScheduleRefresh at h
  cases hg : GetSecret store ns name with
  | none => rw [hg] at h; simp only [Prod.mk.injEq] at h; exact h.1.symm
  | some secret =>
    simp only [hg] at h
    cases he : GetTokenExpiry parse secret with
    | err e0 => simp only [he, Prod.mk.injEq] at h; exact h.1.symm
    | ok T => simp only [he] at h; simp at h

theorem scheduleRefresh_state_cases (parse : String → Option Time) (now : Time)
    (store : Store) (st : RMState) (ns name url : String) :
    (ScheduleRefresh parse now store st ns name url).1 =
        cancelExistingJob st (jobKeyOf ns name) ∨
      ∃ nr, (ScheduleRefresh parse now store st ns name url).1 =
        armJob (cancelExistingJob st (jobKeyOf ns name)) (jobKeyOf ns name)
          ns name url nr := by
  cases h : ScheduleRefresh parse now store st ns name url with
  | mk st' r =>
    cases r with
    | none =>
      rcases scheduleRefresh_ok h with ⟨secret, T, _, _, harm⟩
      exact Or.inr ⟨_, harm⟩
    | some e => exact Or.inl (scheduleRefresh_err h)

theorem armJob_stoppedTimers (st : RMState) (k ns name url : String) (nr : Time) :
    (armJob st k ns name url nr).stoppedTimers = st.stoppedTimers := rfl

theorem armJob_nextId (st : RMState) (k ns name url : String) (nr : Time) :
    (armJob st k ns name url nr).nextId = st.nextId + 2 := rfl

theorem scheduleRefresh_stopped_mem (parse : String → Option Time) (now : Time)
    (store : Store) (st : RMState) (ns name url : String) {t : Nat}
    (h : t ∈ st.stoppedTimers) :
    t ∈ (ScheduleRefresh parse now store st ns name url).1.stoppedTimers := by
  rcases scheduleRefresh_state_cases parse now store st ns name url with hc | ⟨nr, hc⟩
  · rw [hc]; exact cancelExistingJob_stopped_mem st _ h
  · rw [hc, armJob_stoppedTimers]; exact cancelExistingJob_stopped_mem st _ h

theorem scheduleRefresh_stops_existing (parse : String → Option Time) (now : Time)
    (store : Store) (st : RMState) (ns name url : String) {j : RefreshJob} {t : Nat}
    (hj : lookupJob st.refreshJobs (jobKeyOf ns name) = some j)
    (ht : j.Timer = some t) :
    t ∈ (ScheduleRefresh parse now store st ns name url).1.stoppedTimers := by
  have hstop : t ∈ (cancelExistingJob st (jobKeyOf ns name)).stoppedTimers := by
    unfold cancelExistingJob
    rw [hj]
    exact cancelJobHandles_stops st j ht
  rcases scheduleRefresh_state_cases parse now store st ns name url with hc | ⟨nr, hc⟩
  · rw [hc]; exact hstop
  · rw [hc, armJob_stoppedTimers]; exact hstop

/-- Bound invariant on handle ids: every id recorded anywhere in the state
is below the allocation counter. Holds for rmInit and is preserved by the
scheduler operations; it rules out states that name handles that were never
created. -/
def idsBelow (st : RMState) : Prop :=
  (∀ t ∈ st.stoppedTimers, t < st.nextId) ∧
  (∀ p ∈ st.refreshJobs, ∀ t : Nat, p.2.Timer = some t → t < st.nextId)

theorem idsBelow_rmInit : idsBelow rmInit := by
  constructor <;> simp [rmInit]

theorem cancelExistingJob_idsBelow {st : RMState} (k : String)
    (h : idsBelow st) : idsBelow (cancelExistingJob st k) := by
  obtain ⟨h1, h2⟩ := h
  constructor
  · intro t ht
    rw [cancelExistingJob_nextId]
    rcases cancelExistingJob_stopped_sub st k ht with hin | ⟨j, hj, hjt⟩
    · exact h1 t hin
    · exact h2 _ (lookupJob_mem hj) t hjt
  · intro p hp t ht
    rw [cancelExistingJob_nextId]
    rw [cancelExistingJob_refreshJobs] at hp
    exact h2 p hp t ht

theorem scheduleRefresh_stopped_lt {parse : String → Option Time} {now : Time}
    {store : Store} {st : RMState} {ns name url : String}
    (h : idsBelow st) {t : Nat}
    (ht : t ∈ (ScheduleRefresh parse now store st ns name url).1.stoppedTimers) :
    t < st.nextId := by
  have hkey := cancelExistingJob_idsBelow (jobKeyOf ns name) h
  rcases scheduleRefresh_state_cases parse now store st ns name url with hc | ⟨nr, hc⟩
  · rw [hc] at ht
    have := hkey.1 t ht
    rwa [cancelExistingJob_nextId] at this
  · rw [hc, armJob_stoppedTimers] at ht
    have := hkey.1 t ht
    rwa [cancelExistingJob_nextId] at this

theorem scheduleRefresh_idsBelow (parse : String → Option Time) (now : Time)
    (store : Store) {st : RMState} (ns name url : String)
    (h : idsBelow st) :
    idsBelow (ScheduleRefresh parse now store st ns name url).1 := by
  have hkey := cancelExistingJob_idsBelow (jobKeyOf ns name) h
  rcases scheduleRefresh_state_cases parse now store st ns name url with hc | ⟨nr, hc⟩
  · rw [hc]; exact hkey
  · rw [hc]
    obtain ⟨k1, k2⟩ := hkey
    constructor
    · intro t ht
      rw [armJob_stoppedTimers] at ht
      rw [armJob_nextId]
      have := k1 t ht
      omega
    · intro p hp t ht
      rw [armJob_nextId]
      simp only [armJob, setJob] at hp
      rcases List.mem_append.mp hp with hin | hnew
      · have := k2 p (mem_removeJob hin) t ht
        omega
      · simp only [List.mem_singleton] at hnew
        subst hnew
        simp only at ht
        cases ht
        omega

theorem scheduleRefresh_nextId_mono (parse : String → Option Time) (now : Time)
    (store : Store) (st : RMState) (ns name url : String) :
    st.nextId ≤ (ScheduleRefresh parse now store st ns name url).1.nextId := by
  rcases scheduleRefresh_state_cases parse now store st ns name url with hc | ⟨nr, hc⟩
  · rw [hc, cancelExistingJob_nextId]
  · rw [hc, armJob_nextId, cancelExistingJob_nextId]
    omega

/-! Owner selection facts. -/

theorem findGitRepoOwner_cases (s : Secret) :
    ∀ l, findGitRepoOwner s l = none ∨ findGitRepoOwner s l = some s := by
  intro l
  induction l with
  | nil => exact Or.inl rfl
  | cons r rest ih =>
    by_cases h : r.kind == "GitRepository"
    · right; simp [findGitRepoOwner, h]
    · simpa [findGitRepoOwner, h] using ih

theorem ownerForRefresh_self (s : Secret) : ownerForRefresh s = s := by
  unfold ownerForRefresh
  rcases findGitRepoOwner_cases s s.ownerReferences with h | h <;> rw [h]

/-! Concrete fixtures used by witnesses and counterexamples. All wall-clock
strings go through the table parser parseW, a concrete stand-in for
time.Parse(time.RFC3339, _); formatW is the matching formatter. -/

def nsA : String := "team-a"

def snA : String := "repo-a-secret"

def urlA : String := "https://github.com/nrfcloud/repo-a"

def urlB : String := "https://github.com/nrfcloud/repo-b"

def litT300 : String := "t300"

def litT1000 : String := "t1000"

def litT4000 : String := "t4000"

def litBad : String := "invalid-time"

def parseW : String → Option Time := fun s =>
  if s == litT300 then some 300
  else if s == litT1000 then some 1000
  else if s == litT4000 then some 4000
  else none

def formatW : Time → String := fun t =>
  if t == 4000 then litT4000 else litT1000

/-- A managed secret for repo A expiring at 4000. -/
def secretA : Secret :=
  { namespace' := nsA, name := snA, uid := "u1"
    data := [("username", "git"), ("password", "old-token")]
    annotations := some [(AnnotationManagedBy, controllerName),
                         (AnnotationTokenExpiry, litT4000),
                         (AnnotationRepositoryURL, urlA)]
    ownerReferences := [], secretType := SecretTypeGitRepository }

/-- A managed secret whose expiry annotation is exactly leadTime from now 0. -/
def secretBoundary : Secret :=
  { namespace' := nsA, name := snA, uid := "u1"
    data := [("username", "git"), ("password", "old-token")]
    annotations := some [(AnnotationManagedBy, controllerName),
                         (AnnotationTokenExpiry, litT300),
                         (AnnotationRepositoryURL, urlA)]
    ownerReferences := [], secretType := SecretTypeGitRepository }

/-- A managed secret whose expiry annotation does not parse. -/
def secretBadExpiry : Secret :=
  { namespace' := nsA, name := snA, uid := "u2"
    data := [("username", "git"), ("password", "old-token")]
    annotations := some [(AnnotationManagedBy, controllerName),
                         (AnnotationTokenExpiry, litBad),
                         (AnnotationRepositoryURL, urlA)]
    ownerReferences := [], secretType := SecretTypeGitRepository }

/-- A secret carrying a foreign managed-by marker. -/
def secretForeign : Secret :=
  { namespace' := nsA, name := snA, uid := "u3"
    data := []
    annotations := some [(AnnotationManagedBy, "other-controller")]
    ownerReferences := [], secretType := "" }

def validateAll : String → Bool := fun _ => true

def genFail : String → Option InstallationToken := fun _ => none

def genB : String → Option InstallationToken := fun u =>
  if u == urlB then some ⟨"new-token", 4000⟩ else none

def jobB : RefreshJob := ⟨nsA, snA, urlB, 0, none, none⟩

/-! Claim theorems. -/

/-- Claim C4: when token issuance fails, executeRefresh completes without
touching the credential store or the job map: the whole world, store bytes
and scheduler state alike, is returned unchanged and no owner is ever
handed to the upsert. -/
theorem c4_issuerFailure_noop (validate : String → Bool)
    (gen : String → Option InstallationToken) (parse : String → Option Time)
    (format : Time → String) (now : Time) (w : World) (job : RefreshJob)
    (h : gen job.RepositoryURL = none) :
    executeRefresh validate gen parse format now w job = ⟨w, none⟩ := by
  unfold executeRefresh
  by_cases hv : validate job.RepositoryURL
  · simp [hv, h]
  · simp [hv]

theorem c4_issuerFailure_noop_witness :
    executeRefresh validateAll genFail parseW formatW 0 ⟨[secretA], rmInit⟩ jobB =
      ⟨⟨[secretA], rmInit⟩, none⟩ :=
  c4_issuerFailure_noop validateAll genFail parseW formatW 0
    ⟨[secretA], rmInit⟩ jobB rfl

/-- Claim C6: NeedsTokenRefresh returns (false, no error) when the secret is
not managed by this controller; for a managed secret whose token-expiry
annotation parses to T it returns (T - now < leadTime, no error); and for a
managed secret whose expiry cannot be determined it returns true together
with the error. -/
theorem c6_needsTokenRefresh (parse : String → Option Time) (now : Time)
    (s : Secret) (thr : Time) :
    (IsSecretManagedByController s = false →
      NeedsTokenRefresh parse now s thr = (false, none)) ∧
    (∀ anns str T, IsSecretManagedByController s = true →
      s.annotations = some anns →
      lookupKV anns AnnotationTokenExpiry = some str →
      parse str = some T →
      NeedsTokenRefresh parse now s thr = (decide (T - now < thr), none)) ∧
    (∀ e, IsSecretManagedByController s = true →
      GetTokenExpiry parse s = .err e →
      NeedsTokenRefresh parse now s thr = (true, some e)) := by
  refine ⟨fun hm => ?_, fun anns str T hm ha hl hp => ?_, fun e hm he => ?_⟩
  · simp [NeedsTokenRefresh, hm]
  · have hexp : GetTokenExpiry parse s = .ok T := by
      simp [GetTokenExpiry, ha, hl, hp]
    simp [NeedsTokenRefresh, hm, hexp]
  · simp [NeedsTokenRefresh, hm, he]

theorem c6_needsTokenRefresh_witness :
    NeedsTokenRefresh parseW 0 secretForeign 300 = (false, none) ∧
    NeedsTokenRefresh parseW 0 secretA 300 = (decide ((4000 : Time) - 0 < 300), none) ∧
    NeedsTokenRefresh parseW 0 secretBadExpiry 300 =
      (true, some ExpiryError.parseFailure) :=
  ⟨(c6_needsTokenRefresh parseW 0 secretForeign 300).1 (by decide),
   (c6_needsTokenRefresh parseW 0 secretA 300).2.1
     [(AnnotationManagedBy, controllerName),
      (AnnotationTokenExpiry, litT4000),
      (AnnotationRepositoryURL, urlA)] litT4000 4000
     (by decide) rfl (by decide) (by decide),
   (c6_needsTokenRefresh parseW 0 secretBadExpiry 300).2.2
     ExpiryError.parseFailure (by decide) (by decide)⟩

/-- Claim C7: ValidateSecretOwnership succeeds when no secret exists at the
key, fails with the not-managed error when the marker is absent or foreign,
fails with the source-conflict error when a managed secret records a
different repository URL, and the operation is a pure read that returns the
store untouched. -/
theorem c7_validateSecretOwnership (store : Store) (ns name url : String) :
    (GetSecret store ns name = none →
      ValidateSecretOwnership store ns name url = none) ∧
    (∀ s, GetSecret store ns name = some s →
      IsSecretManagedByController s = false →
      ValidateSecretOwnership store ns name url = some .notManaged) ∧
    (∀ s anns url', GetSecret store ns name = some s →
      IsSecretManagedByController s = true →
      s.annotations = some anns →
      lookupKV anns AnnotationRepositoryURL = some url' →
      url' ≠ url →
      ValidateSecretOwnership store ns name url =
        some (.differentRepository url')) ∧
    (ValidateSecretOwnershipS store ns name url).1 = store := by
  refine ⟨fun hg => ?_, fun s hg hm => ?_,
    fun s anns url' hg hm ha hl hne => ?_, rfl⟩
  · simp [ValidateSecretOwnership, hg]
  · simp [ValidateSecretOwnership, hg, hm]
  · have hb : (url' != url) = true := bne_iff_ne.mpr hne
    simp [ValidateSecretOwnership, hg, hm, ha, hl, hb]

theorem c7_validateSecretOwnership_witness :
    ValidateSecretOwnership [] nsA snA urlA = none ∧
    ValidateSecretOwnership [secretForeign] nsA snA urlA =
      some OwnershipError.notManaged ∧
    ValidateSecretOwnership [secretA] nsA snA urlB =
      some (OwnershipError.differentRepository urlA) ∧
    (ValidateSecretOwnershipS [secretA] nsA snA urlB).1 = [secretA] :=
  ⟨(c7_validateSecretOwnership [] nsA snA urlA).1 rfl,
   (c7_validateSecretOwnership [secretForeign] nsA snA urlA).2.1
     secretForeign (by decide) (by decide),
   (c7_validateSecretOwnership [secretA] nsA snA urlB).2.2.1
     secretA [(AnnotationManagedBy, controllerName),
              (AnnotationTokenExpiry, litT4000),
              (AnnotationRepositoryURL, urlA)] urlA
     (by decide) (by decide) (by decide) (by decide) (by decide),
   (c7_validateSecretOwnership [secretA] nsA snA urlB).2.2.2⟩

/-- Claim C8: CancelRefresh is idempotent. With no installed job it is a
no-op on the whole state; applying it twice equals applying it once; and on
a key with a job it removes the entry, stops its timer and invokes its
cancellation handle. -/
theorem c8_cancelRefresh_idempotent (st : RMState) (ns name : String) :
    (lookupJob st.refreshJobs (jobKeyOf ns name) = none →
      CancelRefresh st ns name = st) ∧
    CancelRefresh (CancelRefresh st ns name) ns name = CancelRefresh st ns name ∧
    (∀ job, lookupJob st.refreshJobs (jobKeyOf ns name) = some job →
      lookupJob (CancelRefresh st ns name).refreshJobs (jobKeyOf ns name) = none ∧
      (∀ t, job.Timer = some t → t ∈ (CancelRefresh st ns name).stoppedTimers) ∧
      (∀ c, job.Cancel = some c → c ∈ (CancelRefresh st ns name).invokedCancels)) := by
  have hnone : ∀ st0 : RMState,
      lookupJob st0.refreshJobs (jobKeyOf ns name) = none →
      CancelRefresh st0 ns name = st0 := by
    intro st0 h
    unfold CancelRefresh
    simp only [h]
  refine ⟨hnone st, ?_, ?_⟩
  · cases hl : lookupJob st.refreshJobs (jobKeyOf ns name) with
    | none => rw [hnone st hl, hnone st hl]
    | some job =>
      apply hnone
      show lookupJob (CancelRefresh st ns name).refreshJobs (jobKeyOf ns name) = none
      unfold CancelRefresh
      simp only [hl]
      exact lookupJob_removeJob_self _ _
  · intro job hl
    refine ⟨?_, fun t ht => ?_, fun c hc => ?_⟩
    · unfold CancelRefresh
      simp only [hl]
      exact lookupJob_removeJob_self _ _
    · unfold CancelRefresh
      simp only [hl]
      exact cancelJobHandles_stops st job ht
    · unfold CancelRefresh
      simp only [hl]
      exact cancelJobHandles_cancels st job hc

/-- Concrete scheduler state with one installed job, for the C8 witness. -/
def rmOneJob : RMState :=
  ⟨[(jobKeyOf nsA snA, ⟨nsA, snA, urlA, 3700, some 1, some 0⟩)],
   [(1, 3700)], [], [], 2⟩

theorem c8_cancelRefresh_idempotent_witness :
    (CancelRefresh rmInit nsA snA = rmInit) ∧
    CancelRefresh (CancelRefresh rmOneJob nsA snA) nsA snA =
      CancelRefresh rmOneJob nsA snA ∧
    lookupJob (CancelRefresh rmOneJob nsA snA).refreshJobs (jobKeyOf nsA snA) = none ∧
    1 ∈ (CancelRefresh rmOneJob nsA snA).stoppedTimers ∧
    0 ∈ (CancelRefresh rmOneJob nsA snA).invokedCancels := by
  have h1 := (c8_cancelRefresh_idempotent rmInit nsA snA).1 (by decide)
  have h2 := (c8_cancelRefresh_idempotent rmOneJob nsA snA).2.1
  have h3 := (c8_cancelRefresh_idempotent rmOneJob nsA snA).2.2
    ⟨nsA, snA, urlA, 3700, some 1, some 0⟩ (by decide)
  exact ⟨h1, h2, h3.1, h3.2.1 1 rfl, h3.2.2 0 rfl⟩

/-- Claim C9: a ScheduleRefresh call that fails (secret unreadable or expiry
unparsable) while a job for the key is installed leaves the job map exactly
as it was, yet has already stopped the prior job timer and invoked its
cancellation handle: the failed re-schedule disarms the existing refresh
without removing or replacing its map entry. -/
theorem c9_failedReschedule (parse : String → Option Time) (now : Time)
    (store : Store) (st : RMState) (ns name url : String)
    (job : RefreshJob) (e : ScheduleError)
    (hjob : lookupJob st.refreshJobs (jobKeyOf ns name) = some job)
    (hfail : (ScheduleRefresh parse now store st ns name url).2 = some e) :
    (ScheduleRefresh parse now store st ns name url).1.refreshJobs =
      st.refreshJobs ∧
    (∀ t, job.Timer = some t →
      t ∈ (ScheduleRefresh parse now store st ns name url).1.stoppedTimers) ∧
    (∀ c, job.Cancel = some c →
      c ∈ (ScheduleRefresh parse now store st ns name url).1.invokedCancels) := by
  have hpair : ScheduleRefresh parse now store st ns name url =
      ((ScheduleRefresh parse now store st ns name url).1, some e) := by
    rw [← hfail]
  have hst := scheduleRefresh_err hpair
  rw [hst]
  refine ⟨cancelExistingJob_refreshJobs st _, fun t ht => ?_, fun c hc => ?_⟩
  · unfold cancelExistingJob
    rw [hjob]
    exact cancelJobHandles_stops st job ht
  · unfold cancelExistingJob
    rw [hjob]
    exact cancelJobHandles_cancels st job hc

theorem c9_failedReschedule_witness :
    (ScheduleRefresh parseW 0 [] rmOneJob nsA snA urlA).1.refreshJobs =
      rmOneJob.refreshJobs ∧
    (∀ t, (some 1 : Option Nat) = some t →
      t ∈ (ScheduleRefresh parseW 0 [] rmOneJob nsA snA urlA).1.stoppedTimers) ∧
    (∀ c, (some 0 : Option Nat) = some c →
      c ∈ (ScheduleRefresh parseW 0 [] rmOneJob nsA snA urlA).1.invokedCancels) :=
  c9_failedReschedule parseW 0 [] rmOneJob nsA snA urlA
    ⟨nsA, snA, urlA, 3700, some 1, some 0⟩ ScheduleError.getSecretFailed
    (by decide) (by decide)

/-- Claim C10: in every executeRefresh cycle that reaches the secret upsert,
the owner object handed to CreateOrUpdateSecret is the fetched secret
itself, both when the secret has an owner reference of kind GitRepository
and when it has none: ownerForRefresh is the identity, and the instrumented
owner of the cycle is exactly the secret read from the store. -/
theorem c10_refreshOwnerIsSecret (validate : String → Bool)
    (gen : String → Option InstallationToken) (parse : String → Option Time)
    (format : Time → String) (now : Time) (w : World) (job : RefreshJob) :
    (∀ s : Secret, ownerForRefresh s = s) ∧
    (∀ o, (executeRefresh validate gen parse format now w job).upsertOwner = some o →
      GetSecret w.store job.SecretNamespace job.SecretName = some o) := by
  refine ⟨ownerForRefresh_self, fun o ho => ?_⟩
  unfold executeRefresh at ho
  by_cases hv : validate job.RepositoryURL
  · simp only [hv, Bool.not_true, Bool.false_eq_true, if_false, if_neg] at ho
    cases hg : gen job.RepositoryURL with
    | none => rw [hg] at ho; simp at ho
    | some tok =>
      rw [hg] at ho
      cases hs : GetSecret w.store job.SecretNamespace job.SecretName with
      | none => rw [hs] at ho; simp at ho
      | some secret =>
        rw [hs] at ho
        simp only [ownerForRefresh_self] at ho
        cases hup : CreateOrUpdateSecret format w.store job.SecretNamespace
            job.SecretName tok job.RepositoryURL (secretObjectId secret) with
        | none =>
          rw [hup] at ho
          simp only [Option.some.injEq] at ho
          rw [ho]
        | some store1 =>
          rw [hup] at ho
          simp only [Option.some.injEq] at ho
          rw [ho]
  · simp [hv] at ho

theorem c10_refreshOwnerIsSecret_witness :
    GetSecret [secretA] jobB.SecretNamespace jobB.SecretName = some secretA :=
  (c10_refreshOwnerIsSecret validateAll genB parseW formatW 0
      ⟨[secretA], rmInit⟩ jobB).2 secretA (by decide)

theorem armJob_lookup (st : RMState) (k ns name url : String) (nr : Time) :
    lookupJob (armJob st k ns name url nr).refreshJobs k =
      some ⟨ns, name, url, nr, some (st.nextId + 1), some st.nextId⟩ :=
  lookupJob_setJob_self _ _ _

/-- Claim C3 (amended): a successful ScheduleRefresh arms the job for
NextRefresh = expiry - refreshBuffer, clamped to now + 1 minute when that
instant lies strictly before now; hence NextRefresh is never in the past
(now is a lower bound), though at the exact boundary expiry - refreshBuffer
= now the timer is armed for now itself and fires with zero delay. -/
theorem c3_leadTime_amended (parse : String → Option Time) (now : Time)
    (store : Store) (st : RMState) (ns name url : String) (s : Secret) (T : Time)
    (h1 : GetSecret store ns name = some s)
    (h2 : GetTokenExpiry parse s = ExpiryResult.ok T) :
    ∃ job,
      (ScheduleRefresh parse now store st ns name url).2 = none ∧
      lookupJob (ScheduleRefresh parse now store st ns name url).1.refreshJobs
        (jobKeyOf ns name) = some job ∧
      job.NextRefresh =
        (if T - refreshBuffer < now then now + oneMinute else T - refreshBuffer) ∧
      now ≤ job.NextRefresh := by
  have hrun : ScheduleRefresh parse now store st ns name url =
      (armJob (cancelExistingJob st (jobKeyOf ns name)) (jobKeyOf ns name)
        ns name url
        (if T - refreshBuffer < now then now + oneMinute else T - refreshBuffer),
       none) := by
    unfold ScheduleRefresh
    simp only [h1, h2]
  refine ⟨⟨ns, name, url,
      (if T - refreshBuffer < now then now + oneMinute else T - refreshBuffer),
      some ((cancelExistingJob st (jobKeyOf ns name)).nextId + 1),
      some (cancelExistingJob st (jobKeyOf ns name)).nextId⟩,
    by rw [hrun], ?_, rfl, ?_⟩
  · rw [hrun]
    exact armJob_lookup _ _ _ _ _ _
  · show now ≤ (if T - refreshBuffer < now then now + oneMinute else T - refreshBuffer)
    by_cases hc : T - refreshBuffer < now
    · simp only [hc, if_true]
      unfold oneMinute
      linarith
    · simp only [hc, if_false]
      linarith

theorem c3_leadTime_amended_witness :
    ∃ job,
      (ScheduleRefresh parseW 0 [secretA] rmInit nsA snA urlA).2 = none ∧
      lookupJob (ScheduleRefresh parseW 0 [secretA] rmInit nsA snA urlA).1.refreshJobs
        (jobKeyOf nsA snA) = some job ∧
      job.NextRefresh =
        (if (4000 : Time) - refreshBuffer < 0 then 0 + oneMinute
         else (4000 : Time) - refreshBuffer) ∧
      (0 : Time) ≤ job.NextRefresh :=
  c3_leadTime_amended parseW 0 [secretA] rmInit nsA snA urlA secretA 4000
    (by decide) (by decide)

/-- Claim C3 counterexample to the clause that a successful ScheduleRefresh
is never armed to fire instantly: with the stored expiry exactly
refreshBuffer from now (expiry 300, now 0), the strict Before check does
not clamp, the job is armed for NextRefresh = now itself, and
time.AfterFunc receives a zero duration, firing immediately. -/
theorem c3_leadTime_counterexample :
    (ScheduleRefresh parseW 0 [secretBoundary] rmInit nsA snA urlA).2 = none ∧
    (lookupJob (ScheduleRefresh parseW 0 [secretBoundary] rmInit nsA snA urlA).1.refreshJobs
      (jobKeyOf nsA snA)).map RefreshJob.NextRefresh = some 0 := by
  constructor
  · rfl
  · rfl

/-- Claim C5: on a managed secret whose stored expiry annotation is
malformed, NeedsTokenRefresh itself reports (true, error) as the fail-safe
design intends, but the sweep loop of CheckAndRefreshExpiredTokens checks
the error first and skips the secret, so no ScheduleRefresh call is made:
sweeping a store holding only that secret leaves the scheduler state, here
one with a live installed job for the very same key, byte-for-byte
unchanged, while an actual ScheduleRefresh call on that state would have
visibly changed it (stopping the installed timer). The secret is dropped,
not refreshed. -/
theorem c5_sweepDropsMalformedExpiry :
    NeedsTokenRefresh parseW 0 secretBadExpiry refreshBuffer =
      (true, some ExpiryError.parseFailure) ∧
    CheckAndRefreshExpiredTokens parseW 0 [secretBadExpiry] rmOneJob = rmOneJob ∧
    (ScheduleRefresh parseW 0 [secretBadExpiry] rmOneJob
      secretBadExpiry.namespace' secretBadExpiry.name urlA).1 ≠ rmOneJob := by
  refine ⟨rfl, rfl, by decide⟩

/-- On an existing secret without a controller owner reference, the upsert
of CreateOrUpdateSecret unconditionally succeeds and rewrites the
repository-url annotation to the requested value, whatever the secret
recorded before: the function contains no ownership or source check. -/
theorem createOrUpdateSecret_overwrites (format : Time → String) (store : Store)
    (ns name : String) (tok : InstallationToken) (url : String) (owner : ObjectId)
    (s : Secret)
    (hget : GetSecret store ns name = some s)
    (hctl : getControllerOf s = none) :
    ∃ s2, CreateOrUpdateSecret format store ns name tok url owner =
        some (putSecret store ns name s2) ∧
      s2.namespace' = s.namespace' ∧ s2.name = s.name ∧
      annLookup s2 AnnotationRepositoryURL = some url := by
  have hctl1 : getControllerOf
      { s with
        secretType := SecretTypeGitRepository
        data := setKV (setKV s.data "username" "git") "password" tok.token
        annotations := some (setKV (setKV (setKV
          (match s.annotations with | none => [] | some anns => anns)
          AnnotationManagedBy controllerName)
          AnnotationTokenExpiry (format tok.expiresAt))
          AnnotationRepositoryURL url) } = none := hctl
  refine ⟨⟨s.namespace', s.name, s.uid,
      setKV (setKV s.data "username" "git") "password" tok.token,
      some (setKV (setKV (setKV
        (match s.annotations with | none => [] | some anns => anns)
        AnnotationManagedBy controllerName)
        AnnotationTokenExpiry (format tok.expiresAt))
        AnnotationRepositoryURL url),
      s.ownerReferences ++ [⟨owner.kind, owner.name, owner.uid, true⟩],
      SecretTypeGitRepository⟩, ?_, rfl, rfl, ?_⟩
  · unfold CreateOrUpdateSecret
    simp only [hget]
    unfold mutateSecret setControllerReference
    simp only [hctl1]
  · unfold annLookup
    dsimp only
    exact lookupKV_setKV_self _ _ _

/-- Claim C1 (amended): the once-set marker plus source pair is protected by
a source check only on the reconcile path. (a) ValidateSecretOwnership,
which the reconcile path calls before writing, surfaces a different-source
write attempt as a source-conflict error and performs no write. The
timer-driven refresh path performs no source check at all; with URL
validation and token issuance succeeding for a job carrying a different
repository URL, what happens depends solely on the owner references:
(b) on a secret without a controller owner reference, executeRefresh
silently overwrites the stored repository-url annotation with the job URL
and surfaces no error (executeRefresh has no error output); (c) on a secret
whose controller owner reference names a different object — the normal
case for reconcile-written secrets, whose controller owner is the
GitRepository — the cycle reaches the upsert (the owner is handed to
CreateOrUpdateSecret) but SetControllerReference fails with
AlreadyOwnedError, so the whole world is unchanged: the write is blocked
by the owner-reference collision, not by any source comparison, and the
error is only logged inside executeRefresh, never surfaced. -/
theorem c1_sourceOverwrite_amended
    (store : Store) (rm : RMState) (validate : String → Bool)
    (gen : String → Option InstallationToken) (parse : String → Option Time)
    (format : Time → String) (now : Time)
    (ns name url url2 : String) (s : Secret) (tok : InstallationToken)
    (hget : GetSecret store ns name = some s)
    (hmanaged : IsSecretManagedByController s = true)
    (hanns : annLookup s AnnotationRepositoryURL = some url2)
    (hne : url2 ≠ url)
    (hval : validate url = true)
    (hgen : gen url = some tok) :
    ValidateSecretOwnership store ns name url =
      some (OwnershipError.differentRepository url2) ∧
    (getControllerOf s = none →
      ((GetSecret (executeRefresh validate gen parse format now ⟨store, rm⟩
          ⟨ns, name, url, 0, none, none⟩).world.store ns name).bind
        (fun x => annLookup x AnnotationRepositoryURL)) = some url) ∧
    (∀ existing, getControllerOf s = some existing →
      refersSameObject existing ⟨"Secret", s.name, s.uid, true⟩ = false →
      (executeRefresh validate gen parse format now ⟨store, rm⟩
          ⟨ns, name, url, 0, none, none⟩).world = ⟨store, rm⟩ ∧
      (executeRefresh validate gen parse format now ⟨store, rm⟩
          ⟨ns, name, url, 0, none, none⟩).upsertOwner = some s) := by
  obtain ⟨anns, ha⟩ : ∃ anns, s.annotations = some anns := by
    cases h : s.annotations with
    | none => rw [annLookup, h] at hanns; exact absurd hanns (by simp)
    | some anns => exact ⟨anns, rfl⟩
  have hlk : lookupKV anns AnnotationRepositoryURL = some url2 := by
    unfold annLookup at hanns
    rw [ha] at hanns
    exact hanns
  have hb : (url2 != url) = true := bne_iff_ne.mpr hne
  refine ⟨?_, ?_, ?_⟩
  · simp [ValidateSecretOwnership, hget, hmanaged, ha, hlk, hb]
  · intro hctl
    obtain ⟨s2, hup, hns2, hname2, hurl2⟩ :=
      createOrUpdateSecret_overwrites format store ns name tok url
        (secretObjectId (ownerForRefresh s)) s hget hctl
    have hfields := GetSecret_fields hget
    have hstore : (executeRefresh validate gen parse format now ⟨store, rm⟩
        ⟨ns, name, url, 0, none, none⟩).world.store = putSecret store ns name s2 := by
      unfold executeRefresh
      simp only [hval, hgen, hget, hup, Bool.not_true, Bool.false_eq_true,
        if_false]
    rw [hstore,
      GetSecret_putSecret store ns name s2 (hns2.trans hfields.1)
        (hname2.trans hfields.2)]
    simpa using hurl2
  · intro existing hexist hdiff
    have hco : getControllerOf
        { s with
          secretType := SecretTypeGitRepository
          data := setKV (setKV s.data "username" "git") "password" tok.token
          annotations := some (setKV (setKV (setKV
            (match s.annotations with | none => [] | some anns => anns)
            AnnotationManagedBy controllerName)
            AnnotationTokenExpiry (format tok.expiresAt))
            AnnotationRepositoryURL url) } = some existing := hexist
    have hup : CreateOrUpdateSecret format store ns name tok url
        (secretObjectId s) = none := by
      unfold CreateOrUpdateSecret
      simp only [hget]
      unfold mutateSecret setControllerReference
      simp only [hco, secretObjectId, hdiff]
      rfl
    have hrun : executeRefresh validate gen parse format now ⟨store, rm⟩
        ⟨ns, name, url, 0, none, none⟩ = ⟨⟨store, rm⟩, some s⟩ := by
      unfold executeRefresh
      simp only [hval, hgen, hget, ownerForRefresh_self, hup, Bool.not_true,
        Bool.false_eq_true, if_false]
    exact ⟨by rw [hrun], by rw [hrun]⟩

/-- Claim C1 counterexample: a refresh cycle whose job carries repo B runs
against a store whose managed secret at the same key records repo A. The
claim says this write attempt must surface an error and leave the secret
unchanged; instead the cycle completes (executeRefresh surfaces no error by
construction) and the stored repository-url annotation silently changes
from repo A to repo B. -/
theorem c1_sourceOverwrite_counterexample :
    ((GetSecret (executeRefresh validateAll genB parseW formatW 0
        ⟨[secretA], rmInit⟩ jobB).world.store nsA snA).bind
      (fun x => annLookup x AnnotationRepositoryURL)) = some urlB ∧
    ((GetSecret [secretA] nsA snA).bind
      (fun x => annLookup x AnnotationRepositoryURL)) = some urlA ∧
    urlB ≠ urlA := by
  refine ⟨rfl, rfl, by decide⟩

/-- The managed repo-A secret exactly as a reconcile write leaves it: with
the GitRepository set as controller owner reference. -/
def secretAOwned : Secret :=
  { namespace' := nsA, name := snA, uid := "u1"
    data := [("username", "git"), ("password", "old-token")]
    annotations := some [(AnnotationManagedBy, controllerName),
                         (AnnotationTokenExpiry, litT4000),
                         (AnnotationRepositoryURL, urlA)]
    ownerReferences := [⟨"GitRepository", "repo-a", "guid-1", true⟩]
    secretType := SecretTypeGitRepository }

theorem c1_sourceOverwrite_amended_witness :
    ValidateSecretOwnership [secretA] nsA snA urlB =
      some (OwnershipError.differentRepository urlA) ∧
    ((GetSecret (executeRefresh validateAll genB parseW formatW 0
        ⟨[secretA], rmInit⟩ ⟨nsA, snA, urlB, 0, none, none⟩).world.store nsA snA).bind
      (fun x => annLookup x AnnotationRepositoryURL)) = some urlB ∧
    (executeRefresh validateAll genB parseW formatW 0
        ⟨[secretAOwned], rmInit⟩ ⟨nsA, snA, urlB, 0, none, none⟩).world =
      ⟨[secretAOwned], rmInit⟩ ∧
    (executeRefresh validateAll genB parseW formatW 0
        ⟨[secretAOwned], rmInit⟩ ⟨nsA, snA, urlB, 0, none, none⟩).upsertOwner =
      some secretAOwned := by
  have h1 := c1_sourceOverwrite_amended [secretA] rmInit validateAll genB parseW
    formatW 0 nsA snA urlB urlA secretA ⟨"new-token", 4000⟩
    (by decide) (by decide) (by decide) (by decide) rfl (by decide)
  have h2 := c1_sourceOverwrite_amended [secretAOwned] rmInit validateAll genB parseW
    formatW 0 nsA snA urlB urlA secretAOwned ⟨"new-token", 4000⟩
    (by decide) (by decide) (by decide) (by decide) rfl (by decide)
  have h3 := h2.2.2 ⟨"GitRepository", "repo-a", "guid-1", true⟩ rfl (by decide)
  exact ⟨h1.1, h1.2.1 rfl, h3.1, h3.2⟩

theorem scheduleRefresh_ok_job {parse : String → Option Time} {now : Time}
    {store : Store} {st : RMState} {ns name url : String} {st' : RMState}
    (h : ScheduleRefresh parse now store st ns name url = (st', none)) :
    ∃ nr,
      lookupJob st'.refreshJobs (jobKeyOf ns name) =
        some ⟨ns, name, url, nr, some (st.nextId + 1), some st.nextId⟩ ∧
      countJobs st'.refreshJobs (jobKeyOf ns name) = 1 ∧
      st'.nextId = st.nextId + 2 ∧
      st'.stoppedTimers = (cancelExistingJob st (jobKeyOf ns name)).stoppedTimers ∧
      (st.nextId + 1, nr) ∈ st'.armedTimers := by
  rcases scheduleRefresh_ok h with ⟨secret, T, _, _, harm⟩
  subst harm
  have hn : (cancelExistingJob st (jobKeyOf ns name)).nextId = st.nextId :=
    cancelExistingJob_nextId st _
  refine ⟨(if T - refreshBuffer < now then now + oneMinute else T - refreshBuffer),
    ?_, ?_, ?_, rfl, ?_⟩
  · rw [armJob_lookup, hn]
  · exact countJobs_setJob_self _ _ _
  · rw [armJob_nextId, hn]
  · show _ ∈ (cancelExistingJob st (jobKeyOf ns name)).armedTimers ++ [_]
    apply List.mem_append_right
    simp [hn]

/-- One call in a sequence of ScheduleRefresh invocations for a fixed key:
the store contents, wall clock and requested repository URL of that call. -/
structure SchedCall where
  store : Store
  now : Time
  url : String
deriving DecidableEq, Repr

/-- Run a sequence of ScheduleRefresh calls for one key: final state, the
timer ids created by the successful calls in order, and whether every call
succeeded. -/
def runSchedule (parse : String → Option Time) (ns name : String) :
    RMState → List SchedCall → RMState × List Nat × Bool
  | st, [] => (st, [], true)
  | st, c :: rest =>
    match ScheduleRefresh parse c.now c.store st ns name c.url with
    | (st1, some _) => ((runSchedule parse ns name st1 rest).1,
        (runSchedule parse ns name st1 rest).2.1, false)
    | (st1, none) => ((runSchedule parse ns name st1 rest).1,
        (st.nextId + 1) :: (runSchedule parse ns name st1 rest).2.1,
        (runSchedule parse ns name st1 rest).2.2)

theorem runSchedule_stopped_mem (parse : String → Option Time) (ns name : String) :
    ∀ (calls : List SchedCall) (st : RMState) {t : Nat}, t ∈ st.stoppedTimers →
      t ∈ (runSchedule parse ns name st calls).1.stoppedTimers := by
  intro calls
  induction calls with
  | nil =>
    intro st t ht
    simpa [runSchedule] using ht
  | cons c rest ih =>
    intro st t ht
    cases h : ScheduleRefresh parse c.now c.store st ns name c.url with
    | mk st1 r =>
      have ht1 : t ∈ st1.stoppedTimers := by
        have hmono := scheduleRefresh_stopped_mem parse c.now c.store st ns name c.url ht
        rwa [h] at hmono
      cases r with
      | none =>
        simp only [runSchedule, h]
        exact ih st1 ht1
      | some e =>
        simp only [runSchedule, h]
        exact ih st1 ht1

theorem runSchedule_stops_current (parse : String → Option Time) (ns name : String)
    (calls : List SchedCall) (st : RMState) {j : RefreshJob} {t : Nat}
    (hne : calls ≠ [])
    (hj : lookupJob st.refreshJobs (jobKeyOf ns name) = some j)
    (ht : j.Timer = some t) :
    t ∈ (runSchedule parse ns name st calls).1.stoppedTimers := by
  cases calls with
  | nil => exact absurd rfl hne
  | cons c rest =>
    cases h : ScheduleRefresh parse c.now c.store st ns name c.url with
    | mk st1 r =>
      have ht1 : t ∈ st1.stoppedTimers := by
        have hstop := scheduleRefresh_stops_existing parse c.now c.store st ns name
          c.url hj ht
        rwa [h] at hstop
      cases r with
      | none =>
        simp only [runSchedule, h]
        exact runSchedule_stopped_mem parse ns name rest st1 ht1
      | some e =>
        simp only [runSchedule, h]
        exact runSchedule_stopped_mem parse ns name rest st1 ht1

/-- Claim C2 (amended): for every nonempty sequence of ScheduleRefresh calls
for the same key in which every call succeeds, started from any state whose
recorded handle ids are bounded by the allocation counter, the final job
map holds exactly one job for that key, that job owns the timer created by
the last call, every timer created by an earlier call of the sequence has
been stopped, and the last timer is still live. (The original claim also
covered sequences with failing calls; a failing call installs nothing, see
the counterexample.) -/
theorem c2_atMostOneJob_amended (parse : String → Option Time) (ns name : String) :
    ∀ (calls : List SchedCall) (st : RMState), idsBelow st → calls ≠ [] →
    (runSchedule parse ns name st calls).2.2 = true →
    ∃ (prev : List Nat) (tlast : Nat) (job : RefreshJob),
      (runSchedule parse ns name st calls).2.1 = prev ++ [tlast] ∧
      countJobs (runSchedule parse ns name st calls).1.refreshJobs
        (jobKeyOf ns name) = 1 ∧
      lookupJob (runSchedule parse ns name st calls).1.refreshJobs
        (jobKeyOf ns name) = some job ∧
      job.Timer = some tlast ∧
      (∀ t ∈ prev, t ∈ (runSchedule parse ns name st calls).1.stoppedTimers) ∧
      timerLive (runSchedule parse ns name st calls).1 tlast := by
  intro calls
  induction calls with
  | nil =>
    intro st _ hne _
    exact absurd rfl hne
  | cons c rest ih =>
    intro st hwf _ hok
    cases h : ScheduleRefresh parse c.now c.store st ns name c.url with
    | mk st1 r =>
      cases r with
      | some e =>
        exfalso
        simp only [runSchedule, h] at hok
        simp at hok
      | none =>
        have hwf1 : idsBelow st1 := by
          have hpres := scheduleRefresh_idsBelow parse c.now c.store ns name c.url hwf
          rwa [h] at hpres
        obtain ⟨nr, hlook1, hcount1, hnext1, hstop1, harm1⟩ := scheduleRefresh_ok_job h
        cases rest with
        | nil =>
          have heq : runSchedule parse ns name st [c] = (st1, [st.nextId + 1], true) := by
            simp [runSchedule, h]
          rw [heq]
          refine ⟨[], st.nextId + 1,
            ⟨ns, name, c.url, nr, some (st.nextId + 1), some st.nextId⟩,
            rfl, hcount1, hlook1, rfl, ?_, ?_, ?_⟩
          · intro t htmem
            exact absurd htmem (List.not_mem_nil t)
          · exact List.any_eq_true.mpr ⟨(st.nextId + 1, nr), harm1, by simp⟩
          · intro hmem
            rw [hstop1] at hmem
            have hlt := (cancelExistingJob_idsBelow (jobKeyOf ns name) hwf).1
              _ hmem
            rw [cancelExistingJob_nextId] at hlt
            omega
        | cons c2 rest2 =>
          have heq : runSchedule parse ns name st (c :: c2 :: rest2) =
              ((runSchedule parse ns name st1 (c2 :: rest2)).1,
               (st.nextId + 1) :: (runSchedule parse ns name st1 (c2 :: rest2)).2.1,
               (runSchedule parse ns name st1 (c2 :: rest2)).2.2) := by
            conv_lhs => rw [runSchedule]
            rw [h]
          have hok1 : (runSchedule parse ns name st1 (c2 :: rest2)).2.2 = true := by
            rw [heq] at hok
            exact hok
          obtain ⟨prev', tlast', job', htids', hcount', hlook', htimer', hprev', hlive'⟩ :=
            ih st1 hwf1 (by simp) hok1
          rw [heq]
          refine ⟨(st.nextId + 1) :: prev', tlast', job', ?_, hcount', hlook',
            htimer', ?_, hlive'⟩
          · show (st.nextId + 1) :: (runSchedule parse ns name st1 (c2 :: rest2)).2.1 =
              ((st.nextId + 1) :: prev') ++ [tlast']
            rw [htids']
            rfl
          · intro t htmem
            rcases List.mem_cons.mp htmem with hfirst | hrest
            · subst hfirst

              exact runSchedule_stops_current parse ns name (c2 :: rest2) st1
                (by simp) hlook1 rfl
            · exact hprev' t hrest

theorem c2_atMostOneJob_counterexample :
    (ScheduleRefresh parseW 0 [] rmInit nsA snA urlA).2 =
      some ScheduleError.getSecretFailed ∧
    countJobs (ScheduleRefresh parseW 0 [] rmInit nsA snA urlA).1.refreshJobs
      (jobKeyOf nsA snA) = 0 :=
  ⟨rfl, rfl⟩

def callA : SchedCall := ⟨[secretA], 0, urlA⟩

theorem c2_atMostOneJob_amended_witness :
    ∃ (prev : List Nat) (tlast : Nat) (job : RefreshJob),
      (runSchedule parseW nsA snA rmInit [callA, callA]).2.1 = prev ++ [tlast] ∧
      countJobs (runSchedule parseW nsA snA rmInit [callA, callA]).1.refreshJobs
        (jobKeyOf nsA snA) = 1 ∧
      lookupJob (runSchedule parseW nsA snA rmInit [callA, callA]).1.refreshJobs
        (jobKeyOf nsA snA) = some job ∧
      job.Timer = some tlast ∧
      (∀ t ∈ prev,
        t ∈ (runSchedule parseW nsA snA rmInit [callA, callA]).1.stoppedTimers) ∧
      timerLive (runSchedule parseW nsA snA rmInit [callA, callA]).1 tlast :=
  c2_atMostOneJob_amended parseW nsA snA [callA, callA] rmInit idsBelow_rmInit
    (List.cons_ne_nil _ _) (by decide)

end FluxExt
